import Mathlib

/-!
Verification of the cxConfig configuration-resolution pipeline.

The development embeds the two loader modules of the repository:

* `CxConfig` embeds the current loader (`src/unnamed/part_000`, the module
  exporting `read` / `readLoaded` / `deaSyncRead`): per-load secret-path
  memoization (`read1Password`), source selection (`readWrapped`), the
  template pass with the custom `op` lookup (`processTemplate`), the
  cache write performed in the instance `read`, and the process-wide memo
  of the static `read` / `readLoaded`.
* `Legacy` embeds the older loader (`src/config.js`), whose `readWrapped`
  caches the raw document rather than the path cache.

External collaborators (the 1Password client, nunjucks, scrypt, AES,
JSON, toml) are modelled at their interfaces: they appear as function
fields of `World`, except for the Crypto Box, which is additionally given
a concrete CBC/PKCS#7/hex model parametric in the block cipher.

JavaScript truthiness is modelled explicitly: an `Option String`
environment value is "set" when it is present and non-empty, and the
path-cache guard `if (this.#pathCache[path])` treats an empty-string
entry as absent.
-/

namespace CxConfig

/-- Errors raised by the loaders, one constructor per `throw new Error`
site of the source (plus the uncaught scrypt TypeError of the legacy
loader and the remote-client failure). -/
inductive Err where
  | cacheIVMissing
  | tokenMissing
  | configPathMissing
  | secretFetch (p : String)
  | saltTypeError
  | notLoadedYet
  deriving DecidableEq, Repr

/-- JS-truthiness of an environment variable: `!process.env.X` is false
exactly when the variable is present and non-empty. -/
def envSet : Option String → Bool
  | none => false
  | some v => v != ""

/-- Lookup in the `#pathCache` object (`pc[k]`), modelled as a first-match
association list (`jsSet` prepends, so the first match is the last write). -/
def jsGet : List (String × String) → String → Option String
  | [], _ => none
  | (k, v) :: rest, q => if k = q then some v else jsGet rest q

/-- Assignment `pc[k] = v` on the `#pathCache` object. -/
def jsSet (pc : List (String × String)) (k v : String) : List (String × String) :=
  (k, v) :: pc

/-- Characters of `s.split(':')[0]`: everything before the first colon. -/
def upToColon (l : List Char) : List Char :=
  l.takeWhile (fun c => c != ':')

/-- Characters of `s.split(':')[1]`: `none` when the string has no colon
(the JS destructuring then leaves the variable `undefined`). -/
def afterColon (l : List Char) : Option (List Char) :=
  match l.dropWhile (fun c => c != ':') with
  | [] => none
  | _ :: rest => some (rest.takeWhile (fun c => c != ':'))

/-- Per-instance mutable state of one load: the secret-path memo
`#pathCache` and the log of remote `client.secrets.resolve` invocations
(the log records the remote round trips, for the memoization claims). -/
structure St where
  pathCache : List (String × String)
  log : List String
  deriving DecidableEq, Repr

/-- The state of a fresh `Config` instance: empty path cache, no fetches. -/
def initSt : St := ⟨[], []⟩

/-- A parsed template segment (modelled from the spec: the template
engine is an external collaborator; a document is a sequence of literal
text, double-brace `NAME` variable interpolations, and invocations of
the custom `op` secret lookup with a literal path argument). -/
inductive Seg where
  | lit (t : String)
  | var (n : String)
  | op (p : String)
  deriving DecidableEq, Repr

/-- The environment, filesystem and external collaborators one load runs
against.  Environment variables are `Option String` (unset = `none`);
`overrideFile` / `cacheFile` hold the readable file contents, `none` when
reading throws; `freshSalt` is the value `crypto.randomBytes(16)` yields
for this load's cache write; `resolve` is the remote secret store;
`enc`/`dec`/`scrypt` are the Crypto Box at its interface (`dec` returns
`none` when decryption throws); `serPC`/`deSerPC` are `JSON.stringify` /
`JSON.parse` of the path cache (`none` when parsing throws); `tmplOf` is
the nunjucks parse of a document into literal, variable and op segments
(modelled from the spec: the engine renders segments in order, calling
the registered custom operation for each secret lookup). -/
structure World where
  opCacheIV : Option String
  opToken : Option String
  opConfigPath : Option String
  opConfigCache : Option String
  overrideFile : Option String
  cacheFile : Option String
  freshSalt : String
  resolve : String → Option String
  enc : String → String → String
  dec : String → String → Option String
  scrypt : String → String → String
  serPC : List (String × String) → String
  deSerPC : String → Option (List (String × String))
  tmplOf : String → List Seg

/-- The raw `process.env.OP_SERVICE_ACCOUNT_TOKEN` string used in the
scrypt calls (the source only reaches them after the truthiness check). -/
def tokenStr (w : World) : String := w.opToken.getD ""

/-- The remote-fetch branch of `read1Password`: invoke
`client.secrets.resolve(path)` (logged as a remote round trip); on
success store the value in `#pathCache` and return it, on failure
rethrow the client error. -/
def fetchSecret (w : World) (s : St) (p : String) : Except Err String × St :=
  match w.resolve p with
  | some r => (Except.ok r, ⟨jsSet s.pathCache p r, s.log ++ [p]⟩)
  | none => (Except.error (Err.secretFetch p), ⟨s.pathCache, s.log ++ [p]⟩)

/-- `Config.read1Password(path)` of the current loader: return the memo
entry when `this.#pathCache[path]` is truthy (present and non-empty),
otherwise fetch remotely and memoize.  The lazily created client is
assumed constructible (client construction failure is out of the claims'
scope). -/
def read1Password (w : World) (s : St) (p : String) : Except Err String × St :=
  match jsGet s.pathCache p with
  | some v => if v = "" then fetchSecret w s p else (Except.ok v, s)
  | none => fetchSecret w s p

/-- The cache-file decode pipeline inside `readWrapped`'s try blocks:
split the contents on the first colon, derive the key from the token and
the embedded salt, decrypt, and JSON-parse the path cache.  `none`
captures every caught failure: empty contents (the salt stays `null` and
`scryptSync` throws into the outer catch), a contents string with no
colon (same), an empty ciphertext part (falsy, skipped), a decryption
throw, or a JSON parse throw (both caught by the inner catch). -/
def cacheDecodes (w : World) (c : String) : Option (List (String × String)) :=
  if c = "" then none
  else
    match afterColon c.toList with
    | none => none
    | some saltCs =>
      let ed := String.mk (upToColon c.toList)
      if ed = "" then none
      else (w.dec ed (w.scrypt (tokenStr w) (String.mk saltCs))).bind w.deSerPC

/-- The effect of `readWrapped`'s cache-reading step on the instance
state: when a cache file exists and decodes, `this.#pathCache` is
replaced by the decoded mapping; every failure is caught and leaves the
state untouched. -/
def cacheStep (w : World) (s : St) : St :=
  match w.cacheFile with
  | none => s
  | some c =>
    match cacheDecodes w c with
    | none => s
    | some pc => { s with pathCache := pc }

/-- `Config.readWrapped` of the current loader, in source order: fail
with the config-path error when `process.env.OP_CONFIG_PATH` is falsy;
then run the cache-decoding step; then, if the local override document
exists, return its contents verbatim; otherwise resolve the configured
document path through `read1Password`. -/
def readWrapped (w : World) (s : St) : Except Err String × St :=
  if envSet w.opConfigPath then
    match w.overrideFile with
    | some c => (Except.ok c, cacheStep w s)
    | none => read1Password w (cacheStep w s) (w.opConfigPath.getD "")
  else (Except.error Err.configPathMissing, s)

/-- The custom async `op` filter registered by `processTemplate`: its
body calls `this.read1Password(process.env.OP_CONFIG_PATH)`, ignoring
the path argument `p` supplied in the template. -/
def opFilter (w : World) (s : St) (p : String) : Except Err String × St :=
  read1Password w s (w.opConfigPath.getD "")

/-- One template segment's rendered text (modelled from the spec: the
engine substitutes a variable from the merged bindings, an absent
variable rendering as empty text, and routes an op invocation through
the registered filter). -/
def evalSeg (w : World) (vars : List (String × String)) (s : St) :
    Seg → Except Err String × St
  | Seg.lit t => (Except.ok t, s)
  | Seg.var n => (Except.ok ((jsGet vars n).getD ""), s)
  | Seg.op p => opFilter w s p

/-- Left-to-right rendering of a segment list, threading the instance
state and aborting on the first filter error (the nunjucks callback
convention rejects the render on the first `callback(e)`). -/
def renderSegs (w : World) (vars : List (String × String)) :
    List Seg → St → Except Err String × St
  | [], s => (Except.ok "", s)
  | seg :: rest, s =>
    match evalSeg w vars s seg with
    | (Except.ok v, s2) =>
      match renderSegs w vars rest s2 with
      | (Except.ok r, s3) => (Except.ok (v ++ r), s3)
      | e => e
    | (Except.error e, s2) => (Except.error e, s2)

/-- `Config.processTemplate(template, vars)`: register the `op` filter
and render the document. -/
def processTemplate (w : World) (vars : List (String × String))
    (template : String) (s : St) : Except Err String × St :=
  renderSegs w vars (w.tmplOf template) s

instance exceptDecEq {ε α : Type} [DecidableEq ε] [DecidableEq α] :
    DecidableEq (Except ε α) := fun a b =>
  match a, b with
  | Except.ok x, Except.ok y =>
    if h : x = y then Decidable.isTrue (by rw [h])
    else Decidable.isFalse (fun hc => by cases hc; exact h rfl)
  | Except.error x, Except.error y =>
    if h : x = y then Decidable.isTrue (by rw [h])
    else Decidable.isFalse (fun hc => by cases hc; exact h rfl)
  | Except.ok _, Except.error _ => Decidable.isFalse (fun hc => by cases hc)
  | Except.error _, Except.ok _ => Decidable.isFalse (fun hc => by cases hc)

/-- The outcome of one instance `read`: the rendered document text (the
result handed to `toml.parse`, an external collaborator), the final
instance state, and the contents written to the cache file (`none` when
caching is disabled or the load failed earlier). -/
structure LoadOut where
  result : Except Err String
  st : St
  cacheWrite : Option String
  deriving DecidableEq, Repr

/-- The instance `read` of the current loader: fail fast when
`OP_CACHE_IV` or `OP_SERVICE_ACCOUNT_TOKEN` is falsy; obtain the raw
document via `readWrapped`; render it through `processTemplate` with the
merged bindings; then, when `OP_CONFIG_CACHE` is truthy, write
`encrypt(JSON.stringify(this.#pathCache), scrypt(token, salt)) + colon +
salt` with a freshly generated salt.  The wall-clock watchdog timers are
real-time behavior and are not modelled. -/
def instanceRead (w : World) (vars : List (String × String)) : LoadOut :=
  if envSet w.opCacheIV then
    if envSet w.opToken then
      match readWrapped w initSt with
      | (Except.error e, s) => ⟨Except.error e, s, none⟩
      | (Except.ok raw, s) =>
        match processTemplate w vars raw s with
        | (Except.error e, s2) => ⟨Except.error e, s2, none⟩
        | (Except.ok rendered, s2) =>
          ⟨Except.ok rendered, s2,
            if envSet w.opConfigCache then
              some (w.enc (w.serPC s2.pathCache) (w.scrypt (tokenStr w) w.freshSalt)
                    ++ ":" ++ w.freshSalt)
            else none⟩
    else ⟨Except.error Err.tokenMissing, initSt, none⟩
  else ⟨Except.error Err.cacheIVMissing, initSt, none⟩

/-- An arbitrary sequence of secret lookups performed against one
instance during one load (each render invocation of the filter is one
such lookup); used to state the memoization invariant. -/
def lookupSeq (w : World) : List String → St → St
  | [], s => s
  | p :: ps, s => lookupSeq w ps (read1Password w s p).2

/-- Process-level view of the static entry points, for the single-flight
claims.  `staticCache` is `Config.#staticCache`; the counters record how
many `Config` instances have been constructed and how many `readWrapped`
pipeline executions have started. -/
structure Proc where
  staticCache : Option String
  instancesCreated : Nat
  pipelineStarts : Nat
  deriving DecidableEq, Repr

/-- The synchronous prefix of one call to the static `Config.read`: when
the memo is truthy the call returns a deep copy at once; otherwise it
constructs a fresh instance (whose private loading promise is null) and
that instance's `read` starts its own `readWrapped` pipeline. -/
def staticReadCall (p : Proc) : Proc :=
  match p.staticCache with
  | some _ => p
  | none =>
    { p with instancesCreated := p.instancesCreated + 1
             pipelineStarts := p.pipelineStarts + 1 }

/-- `n` concurrent calls to the static `Config.read`, all issued before
the first resolution settles (so the memo stays unset throughout). -/
def staticReadCalls : Nat → Proc → Proc
  | 0, p => p
  | n + 1, p => staticReadCalls n (staticReadCall p)

/-- One instance's in-flight guard: whether `this.#loadingPromise` is
set, and how many `readWrapped` executions this instance has started. -/
structure InstFlight where
  loadingSet : Bool
  pipelineStarts : Nat
  deriving DecidableEq, Repr

/-- The synchronous prefix of one call to the instance `read`: start
`readWrapped` and store its promise only when `this.#loadingPromise` is
still null, otherwise await the existing promise. -/
def instanceReadCall (f : InstFlight) : InstFlight :=
  if f.loadingSet then f else ⟨true, f.pipelineStarts + 1⟩

/-- `n` concurrent calls to one instance's `read`, all issued before the
in-flight resolution settles. -/
def instanceReadCalls : Nat → InstFlight → InstFlight
  | 0, f => f
  | n + 1, f => instanceReadCalls n (instanceReadCall f)

/-- Object store for the process-wide memo claims: JS objects live on a
heap addressed by allocation order, `memo` is `Config.#staticCache` as a
heap address, and the structured config value is abstracted to a
`String`.  Distinct addresses are distinct objects. -/
structure Mem where
  heap : List String
  memo : Option Nat
  deriving DecidableEq, Repr

/-- `JSON.parse(JSON.stringify(v))`: allocate a fresh object carrying
the same value and return its address. -/
def cloneVal (m : Mem) (v : String) : Mem × Nat :=
  ({ m with heap := m.heap ++ [v] }, m.heap.length)

/-- The first successful static `Config.read`: the pipeline's
`toml.parse` allocates the config object, `Config.#staticCache` is set
to it, and that very object is returned to the loading caller. -/
def staticReadFirst (m : Mem) (v : String) : Mem × Nat :=
  ({ heap := m.heap ++ [v], memo := some m.heap.length }, m.heap.length)

/-- A static `Config.read` call that finds the memo set: it returns
`JSON.parse(JSON.stringify(Config.#staticCache))`, a deep copy. -/
def staticReadHit (m : Mem) : Option (Mem × Nat) :=
  match m.memo with
  | none => none
  | some a => some (cloneVal m (m.heap.getD a ""))

/-- `Config.readLoaded()`: a deep copy of the memo when it is set, the
not-loaded-yet error otherwise. -/
def readLoadedFn (m : Mem) : Except Err (Mem × Nat) :=
  match m.memo with
  | none => Except.error Err.notLoadedYet
  | some a => Except.ok (cloneVal m (m.heap.getD a ""))

/-- A caller mutating the object it was handed (assignment through the
returned reference). -/
def mutateObj (m : Mem) (a : Nat) (v : String) : Mem :=
  { m with heap := m.heap.set a v }

end CxConfig

namespace Legacy

open CxConfig

/-- The outcome of the legacy `readWrapped` (`src/config.js`): the raw
document result and the contents written to the cache file, if any. -/
structure Out where
  result : Except Err String
  cacheWrite : Option String
  deriving DecidableEq, Repr

/-- The remote-fetch tail of the legacy `readWrapped`: resolve the
configured document path; on success, when `OP_CONFIG_CACHE` is truthy,
write `encrypt(configRaw, key) + colon + salt` using the key and salt
already in scope. -/
def remoteFetch (w : World) (key saltv : String) : Out :=
  match w.resolve (w.opConfigPath.getD "") with
  | none => ⟨Except.error (Err.secretFetch (w.opConfigPath.getD "")), none⟩
  | some raw =>
    ⟨Except.ok raw,
     if envSet w.opConfigCache then some (w.enc raw key ++ ":" ++ saltv) else none⟩

/-- `Config.readWrapped` of the legacy loader, in source order: return
the override file verbatim when present; fail when `OP_CONFIG_PATH` is
falsy; initialize `salt` to fresh random bytes but overwrite both
`encryptedData` and `salt` from the cache file when it exists with
truthy contents (a contents string without a colon leaves `salt`
undefined and the subsequent `scryptSync` throws, uncaught); derive the
key; return the decrypted cache when decryption succeeds; otherwise
fetch remotely and cache the raw document under that same key and salt. -/
def readWrapped (w : World) : Out :=
  match w.overrideFile with
  | some c => ⟨Except.ok c, none⟩
  | none =>
    if envSet w.opConfigPath then
      let parts : Option String × Option String :=
        match w.cacheFile with
        | none => (none, some w.freshSalt)
        | some contents =>
          if contents = "" then (none, some w.freshSalt)
          else (some (String.mk (upToColon contents.toList)),
                (afterColon contents.toList).map String.mk)
      match parts.2 with
      | none => ⟨Except.error Err.saltTypeError, none⟩
      | some saltv =>
        let key := w.scrypt (tokenStr w) saltv
        match parts.1 with
        | some ed =>
          if ed = "" then remoteFetch w key saltv
          else
            match w.dec ed key with
            | some plain => ⟨Except.ok plain, none⟩
            | none => remoteFetch w key saltv
        | none => remoteFetch w key saltv
    else ⟨Except.error Err.configPathMissing, none⟩

end Legacy

namespace CryptoBox

/-!
Concrete model of the Crypto Box (`Config.encrypt` / `Config.decrypt`):
`crypto.createCipheriv` with an AES-class 16-byte-block cipher in CBC
mode with PKCS#7 padding, utf8 plaintext bytes in and hex text out.  The
block cipher itself is the external primitive: it enters as a function
parameter, so every theorem about the box holds for any keyed block
permutation, AES-256 included.  Bytes are naturals (meaningful byte
values are below 256). -/

/-- PKCS#7 padding to a multiple of the 16-byte block size, as applied
by `cipher.update`/`cipher.final`. -/
def pkcs7pad (l : List Nat) : List Nat :=
  l ++ List.replicate (16 - l.length % 16) (16 - l.length % 16)

/-- PKCS#7 unpadding, as checked by `decipher.final`: `none` is the
bad-padding throw. -/
def pkcs7unpad (l : List Nat) : Option (List Nat) :=
  match l.getLast? with
  | none => none
  | some p =>
    if p = 0 ∨ 16 < p ∨ l.length < p then none
    else if (l.drop (l.length - p)).all (fun x => x == p) then
      some (l.take (l.length - p))
    else none

/-- Bytewise xor of two blocks. -/
def xorBlock (a b : List Nat) : List Nat :=
  List.zipWith Nat.xor a b

/-- CBC encryption of a block sequence: each plaintext block is xored
with the previous ciphertext block (initially the IV) and then passed
through the keyed block-encryption function. -/
def cbcEncBlocks (E : List Nat → List Nat) (iv : List Nat) :
    List (List Nat) → List (List Nat)
  | [] => []
  | b :: bs =>
    let c := E (xorBlock iv b)
    c :: cbcEncBlocks E c bs

/-- CBC decryption of a block sequence: each ciphertext block is passed
through the keyed block-decryption function and xored with the previous
ciphertext block (initially the IV). -/
def cbcDecBlocks (D : List Nat → List Nat) (iv : List Nat) :
    List (List Nat) → List (List Nat)
  | [] => []
  | c :: cs => xorBlock iv (D c) :: cbcDecBlocks D c cs

/-- Fuel-indexed block splitter (the fuel only forces structural
recursion; `toBlocks` supplies enough fuel for it never to run out). -/
def toBlocksAux : Nat → List Nat → List (List Nat)
  | 0, _ => []
  | fuel + 1, l => if l = [] then [] else l.take 16 :: toBlocksAux fuel (l.drop 16)

/-- Split a byte sequence into 16-byte blocks. -/
def toBlocks (l : List Nat) : List (List Nat) :=
  toBlocksAux l.length l

/-- A hex digit character (lowercase, as Node emits). -/
def hexDigit (n : Nat) : Char :=
  if n < 10 then Char.ofNat (48 + n) else Char.ofNat (87 + n)

/-- The two hex characters of one byte. -/
def hexByte (b : Nat) : List Char :=
  [hexDigit (b / 16), hexDigit (b % 16)]

/-- Hex encoding of a byte sequence, the `'hex'` output encoding of
`cipher.update`/`cipher.final`. -/
def hexEncode (l : List Nat) : String :=
  String.mk (l.map hexByte).flatten

/-- The value of one hex character, `none` on a non-hex character. -/
def hexDigitVal (c : Char) : Option Nat :=
  if '0' ≤ c ∧ c ≤ '9' then some (c.toNat - 48)
  else if 'a' ≤ c ∧ c ≤ 'f' then some (c.toNat - 87)
  else none

/-- Hex decoding of a character sequence: `none` on odd length or a
non-hex character (the decipher's bad-input throw). -/
def hexDecodeChars : List Char → Option (List Nat)
  | [] => some []
  | [_] => none
  | a :: b :: rest =>
    match hexDigitVal a, hexDigitVal b, hexDecodeChars rest with
    | some hi, some lo, some tl => some ((16 * hi + lo) :: tl)
    | _, _, _ => none

/-- `Config.encrypt(text, key)` with the fixed environment IV: CBC-mode
encryption of the padded plaintext bytes under the keyed block function,
hex-encoded. -/
def encrypt (blockE : List Nat → List Nat → List Nat) (iv key text : List Nat) :
    String :=
  hexEncode (cbcEncBlocks (blockE key) iv (toBlocks (pkcs7pad text))).flatten

/-- `Config.decrypt(encryptedData, key)` with the fixed environment IV:
hex-decode, reject a byte count that is zero or not a whole number of
blocks, CBC-decrypt, unpad.  `none` is the caught decryption throw. -/
def decrypt (blockD : List Nat → List Nat → List Nat) (iv key : List Nat)
    (cipherHex : String) : Option (List Nat) :=
  match hexDecodeChars cipherHex.toList with
  | none => none
  | some bytes =>
    if bytes = [] ∨ bytes.length % 16 ≠ 0 then none
    else pkcs7unpad (cbcDecBlocks (blockD key) iv (toBlocks bytes)).flatten

/-- A toy keyed block cipher (xor with the first sixteen key bytes),
used to instantiate the block-cipher parameter in concrete theorems. -/
def xorKeyStream (key b : List Nat) : List Nat :=
  List.zipWith Nat.xor (key.take 16) b

/-- A toy key-derivation function standing for the scrypt interface in
concrete theorems: a key determined by the token and the salt. -/
def toyKdf (token salt : List Nat) : List Nat :=
  (salt ++ token ++ List.replicate 32 0).take 32

end CryptoBox

namespace TestData

open CxConfig

/-- A neutral world for concrete scenarios: environment set, no files,
an unreachable remote store, identity-style collaborators.  Individual
scenarios override the relevant fields. -/
def baseW : World :=
  { opCacheIV := some "d090bf1bf66a39f6589fe25a377927f3"
    opToken := some "tok"
    opConfigPath := some "op://v/doc"
    opConfigCache := none
    overrideFile := none
    cacheFile := none
    freshSalt := "SALT"
    resolve := fun _ => none
    enc := fun t _ => t
    dec := fun t _ => some t
    scrypt := fun t s => t ++ s
    serPC := fun _ => ""
    deSerPC := fun _ => none
    tmplOf := fun _ => [] }

/-- World for the op-filter scenario: the store holds a document at the
configured path and a distinct secret at the path a template names. -/
def wOpBug : World :=
  { baseW with
    resolve := fun p =>
      if p = "op://v/doc" then some "DOCVAL"
      else if p = "op://my-vault/my-app/host" then some "HOSTVAL"
      else none }

/-- World whose configured path resolves to the empty string. -/
def wEmptySecret : World :=
  { baseW with
    opConfigPath := some "p"
    resolve := fun q => if q = "p" then some "" else none }

/-- World whose configured path resolves to a non-empty secret. -/
def wMemoSecret : World :=
  { baseW with
    opConfigPath := some "p"
    resolve := fun q => if q = "p" then some "s" else none }

/-- World with an override file whose template invokes the op lookup. -/
def wOverrideOp : World :=
  { baseW with
    opConfigPath := some "p"
    overrideFile := some "tpl"
    resolve := fun q => if q = "p" then some "v" else none
    tmplOf := fun _ => [Seg.op "x"] }

/-- World with an override file present but the config path unset. -/
def wNoPath : World :=
  { baseW with opConfigPath := none, overrideFile := some "tpl" }

/-- World with an override file whose template performs no secret
lookup. -/
def wOverridePlain : World :=
  { baseW with overrideFile := some "tpl" }

/-- World with a cache file that fails to decrypt and a reachable
remote document. -/
def wCorrupt : World :=
  { baseW with
    cacheFile := some "garbage:SALT"
    dec := fun _ _ => none
    resolve := fun q => if q = "op://v/doc" then some "DOC" else none }

/-- World with an override file and an undecryptable cache file, for
the decrypt-failure classification scenario. -/
def wC7w : World :=
  { baseW with
    overrideFile := some "OVR"
    cacheFile := some "bad:S"
    dec := fun _ _ => none }

/-- World for the legacy cache-write scenario: an existing cache file
embeds a salt, its ciphertext fails to decrypt, the remote fetch
succeeds, and on-disk caching is enabled. -/
def wLegacySalt : World :=
  { baseW with
    opConfigPath := some "p"
    cacheFile := some "deadbeef:OLDSALT"
    dec := fun _ _ => none
    resolve := fun q => if q = "p" then some "RAW" else none
    opConfigCache := some "300"
    freshSalt := "NEWSALT"
    enc := fun t k => t ++ "." ++ k
    scrypt := fun t s => t ++ "-" ++ s }

/-- Concrete coherent collaborators for the cache round-trip scenario:
the cipher prefixes a marker character, serialization is a lookup table
for the path cache this scenario produces, and the template references
the op lookup once. -/
def wRound : World :=
  { baseW with
    opConfigPath := some "p"
    opConfigCache := some "300"
    freshSalt := "SALT9"
    resolve := fun q => if q = "p" then some "D" else none
    enc := fun t _ => "E" ++ t
    dec := fun t _ =>
      match t.toList with
      | 'E' :: rest => some (String.mk rest)
      | _ => none
    serPC := fun pc => if pc = [("p", "D")] then "J" else "X"
    deSerPC := fun s => if s = "J" then some [("p", "D")] else none
    tmplOf := fun _ => [Seg.op "q"] }

/-- The round-trip world with an empty remote document: the store
resolves the configured path to the empty string (and the template
performs no lookup of its own). -/
def wRoundEmpty : World :=
  { wRound with
    resolve := fun q => if q = "p" then some "" else none
    serPC := fun pc => if pc = [("p", "")] then "J" else "X"
    deSerPC := fun s => if s = "J" then some [("p", "")] else none
    tmplOf := fun _ => [] }

/-- The second-load world of the empty-document scenario: the cache
file holds the first load's write. -/
def wRoundEmpty2 : World :=
  { wRoundEmpty with
    cacheFile := (instanceRead wRoundEmpty []).cacheWrite }

/-- IV bytes for the crypto round-trip witness. -/
def ivW : List Nat := List.replicate 16 5

/-- Token bytes for the crypto witness. -/
def tokW : List Nat := List.replicate 4 7

/-- Salt bytes for the crypto witness. -/
def saltW : List Nat := List.replicate 4 3

/-- Plaintext bytes for the crypto witness. -/
def textW : List Nat := [72, 105]

/-- All-zero IV for the wrong-key scenario. -/
def iv0 : List Nat := List.replicate 16 0

/-- Token bytes for the wrong-key scenario. -/
def tok0 : List Nat := List.replicate 32 0

/-- First salt of the wrong-key scenario (the write's salt). -/
def saltA : List Nat := List.replicate 32 0

/-- Second salt of the wrong-key scenario, differing in one byte. -/
def saltB : List Nat := 1 :: List.replicate 31 0

end TestData

namespace CxConfig

theorem envSet_some {v : String} (h : v ≠ "") : envSet (some v) = true := by
  simp [envSet, h]

theorem cacheStep_log (w : World) (s : St) : (cacheStep w s).log = s.log := by
  unfold cacheStep
  rcases hcf : w.cacheFile with _ | c
  · rfl
  · rcases hcd : cacheDecodes w c with _ | pc <;> simp [hcd]

/-- C1: the custom secret-lookup operation registered for templates is
claimed to resolve the literal path argument given in the template; the
registered filter in fact resolves the globally configured document
path, so a template referencing a distinct secret path receives the
configured document's value instead of that path's secret. -/
theorem c1_op_ignores_path :
    (opFilter TestData.wOpBug initSt "op://my-vault/my-app/host").1 = Except.ok "DOCVAL"
    ∧ TestData.wOpBug.resolve "op://my-vault/my-app/host" = some "HOSTVAL"
    ∧ ("DOCVAL" : String) ≠ "HOSTVAL" := by
  refine ⟨by decide, by decide, by decide⟩

theorem instanceReadCalls_loadingSet (n k : Nat) :
    instanceReadCalls n ⟨true, k⟩ = ⟨true, k⟩ := by
  induction n with
  | zero => rfl
  | succ m ih => simpa [instanceReadCalls, instanceReadCall] using ih

theorem staticReadCalls_unset (n : Nat) :
    ∀ i k, staticReadCalls n ⟨none, i, k⟩ = ⟨none, i + n, k + n⟩ := by
  induction n with
  | zero => intro i k; rfl
  | succ m ih =>
    intro i k
    have h1 : staticReadCall ⟨none, i, k⟩ = ⟨none, i + 1, k + 1⟩ := rfl
    calc staticReadCalls (m + 1) ⟨none, i, k⟩
        = staticReadCalls m ⟨none, i + 1, k + 1⟩ := by rw [staticReadCalls, h1]
      _ = ⟨none, i + 1 + m, k + 1 + m⟩ := ih (i + 1) (k + 1)
      _ = ⟨none, i + (m + 1), k + (m + 1)⟩ := by simp [Nat.add_assoc, Nat.add_comm 1 m]

/-- C3 counterexample: two concurrent calls to the public static read,
both issued before the first resolution settles, start two pipeline
executions, not one; each call constructs its own instance. -/
theorem c3_static_read_not_single_flight :
    (staticReadCalls 2 ⟨none, 0, 0⟩).pipelineStarts = 2
    ∧ (staticReadCalls 2 ⟨none, 0, 0⟩).instancesCreated = 2
    ∧ (2 : Nat) ≠ 1 := by decide

/-- C3 (amended): single-flight holds per instance — `n` concurrent
calls to one instance's read start exactly `min n 1` pipeline
executions — while `n` concurrent calls to the public static read while
the memo is unset each construct a fresh instance and start `n`
pipeline executions. -/
theorem c3_single_flight_per_instance (n : Nat) :
    (instanceReadCalls n ⟨false, 0⟩).pipelineStarts = min n 1
    ∧ (staticReadCalls n ⟨none, 0, 0⟩).pipelineStarts = n := by
  constructor
  · cases n with
    | zero => rfl
    | succ m =>
      have h1 : instanceReadCall ⟨false, 0⟩ = ⟨true, 1⟩ := rfl
      have h2 : instanceReadCalls (m + 1) ⟨false, 0⟩ = ⟨true, 1⟩ := by
        rw [instanceReadCalls, h1, instanceReadCalls_loadingSet]
      rw [h2]
      simp [Nat.min_eq_right (Nat.succ_le_succ (Nat.zero_le m))]
  · rw [staticReadCalls_unset n 0 0]
    simp

/-- C5 counterexample: with an override file present but the config
path unset, the load still fails with the config-path error (the claim
says an unset config path does not cause the load to fail when an
override file is present). -/
theorem c5_missing_path_fails_despite_override :
    TestData.wNoPath.overrideFile = some "tpl"
    ∧ TestData.wNoPath.opConfigPath = none
    ∧ (instanceRead TestData.wNoPath []).result = Except.error Err.configPathMissing := by
  refine ⟨by decide, by decide, by decide⟩

/-- C5 (amended): the config path is required unconditionally — when it
is unset (and the other two required environment values are present)
the load fails with the config-path error before any network I/O,
whether or not an override file exists, because the path check precedes
the override-file check. -/
theorem c5_path_required_unconditionally (w : World) (vars : List (String × String))
    (hIV : envSet w.opCacheIV) (hTok : envSet w.opToken)
    (hnp : envSet w.opConfigPath = false) :
    instanceRead w vars = ⟨Except.error Err.configPathMissing, initSt, none⟩ := by
  unfold instanceRead readWrapped
  simp [hIV, hTok, hnp]

/-- C5 witness: the amended theorem applied to the concrete world with
an override file and an unset config path. -/
theorem c5_path_required_unconditionally_witness :
    envSet TestData.wNoPath.opCacheIV = true
    ∧ envSet TestData.wNoPath.opConfigPath = false
    ∧ instanceRead TestData.wNoPath [] = ⟨Except.error Err.configPathMissing, initSt, none⟩ :=
  ⟨by decide, by decide,
   c5_path_required_unconditionally TestData.wNoPath [] (by decide) (by decide) (by decide)⟩

theorem read1Password_preserves_truthy (w : World) (s : St) (p P u : String)
    (hu : jsGet s.pathCache P = some u) (hne : u ≠ "") :
    jsGet (read1Password w s p).2.pathCache P = some u
    ∧ (read1Password w s p).2.log.count P = s.log.count P := by
  by_cases hp : p = P
  · subst hp
    simp [read1Password, hu, hne]
  · unfold read1Password fetchSecret
    rcases hq : jsGet s.pathCache p with _ | v
    · rcases hr : w.resolve p with _ | r
      · simp [hu, List.count_append, List.count_singleton, hp]
      · simp [jsSet, jsGet, hp, hu, List.count_append, List.count_singleton]
    · by_cases hv : v = ""
      · subst hv
        rcases hr : w.resolve p with _ | r
        · simp [hu, List.count_append, List.count_singleton, hp]
        · simp [jsSet, jsGet, hp, hu, List.count_append, List.count_singleton]
      · simp [hv, hu]

theorem lookupSeq_preserves_truthy (w : World) (P u : String) (hne : u ≠ "") :
    ∀ (ps : List String) (s : St), jsGet s.pathCache P = some u →
    (lookupSeq w ps s).log.count P = s.log.count P := by
  intro ps
  induction ps with
  | nil => intro s _; rfl
  | cons p ps ih =>
    intro s hu
    have h := read1Password_preserves_truthy w s p P u hu hne
    rw [lookupSeq, ih _ h.1, h.2]

theorem read1Password_count_ne (w : World) (s : St) (p P : String) (hp : p ≠ P) :
    (read1Password w s p).2.log.count P = s.log.count P := by
  unfold read1Password fetchSecret
  rcases hq : jsGet s.pathCache p with _ | v
  · rcases hr : w.resolve p with _ | r <;>
      simp [List.count_append, List.count_singleton, hp]
  · by_cases hv : v = ""
    · subst hv
      rcases hr : w.resolve p with _ | r <;>
        simp [List.count_append, List.count_singleton, hp]
    · simp [hv]

theorem lookupSeq_count_le (w : World) (P v : String)
    (hres : w.resolve P = some v) (hv : v ≠ "") :
    ∀ (ps : List String) (s : St),
    (lookupSeq w ps s).log.count P ≤ s.log.count P + 1 := by
  intro ps
  induction ps with
  | nil => intro s; exact Nat.le_succ _
  | cons p ps ih =>
    intro s
    rw [lookupSeq]
    by_cases hp : p = P
    · subst hp
      rcases hq : jsGet s.pathCache p with _ | u
      · have hstep : (read1Password w s p).2 = ⟨jsSet s.pathCache p v, s.log ++ [p]⟩ := by
          simp [read1Password, hq, fetchSecret, hres]
        have htr : jsGet (jsSet s.pathCache p v) p = some v := by simp [jsSet, jsGet]
        rw [hstep, lookupSeq_preserves_truthy w p v hv ps _ htr]
        simp [List.count_append, List.count_singleton]
      · by_cases hu : u = ""
        · subst hu
          have hstep : (read1Password w s p).2 = ⟨jsSet s.pathCache p v, s.log ++ [p]⟩ := by
            simp [read1Password, hq, fetchSecret, hres]
          have htr : jsGet (jsSet s.pathCache p v) p = some v := by simp [jsSet, jsGet]
          rw [hstep, lookupSeq_preserves_truthy w p v hv ps _ htr]
          simp [List.count_append, List.count_singleton]
        · have hstep : (read1Password w s p).2 = s := by
            simp [read1Password, hq, hu]
          rw [hstep, lookupSeq_preserves_truthy w p u hu ps s hq]
          exact Nat.le_succ _
    · calc (lookupSeq w ps (read1Password w s p).2).log.count P
          ≤ (read1Password w s p).2.log.count P + 1 := ih _
        _ = s.log.count P + 1 := by rw [read1Password_count_ne w s p P hp]

/-- C2 counterexample: a path whose secret resolves to the empty string
is fetched remotely on every reference — two op references in one
render produce two remote round trips for the same path, because the
memo guard tests JS truthiness and an empty-string entry reads as
absent. -/
theorem c2_empty_secret_refetched :
    TestData.wEmptySecret.resolve "p" = some ""
    ∧ (renderSegs TestData.wEmptySecret [] [Seg.op "a", Seg.op "b"] initSt).2.log
      = ["p", "p"] := by
  refine ⟨by decide, by decide⟩

/-- C2 (amended): for every secret path whose resolved value is a
non-empty string, any sequence of lookups within one load performs at
most one remote fetch for that path; the first resolution memoizes the
value and later references reuse it.  (A path resolving to the empty
string is re-fetched on each reference.) -/
theorem c2_memoized_nonempty (w : World) (P v : String) (ps : List String)
    (hres : w.resolve P = some v) (hv : v ≠ "") :
    (lookupSeq w ps initSt).log.count P ≤ 1 := by
  simpa [initSt] using lookupSeq_count_le w P v hres hv ps initSt

/-- C2 witness: three successive references to a path resolving to a
non-empty secret fetch it remotely at most once. -/
theorem c2_memoized_nonempty_witness :
    TestData.wMemoSecret.resolve "p" = some "s"
    ∧ ("s" : String) ≠ ""
    ∧ (lookupSeq TestData.wMemoSecret ["p", "p", "p"] initSt).log.count "p" ≤ 1 :=
  ⟨by decide, by decide,
   c2_memoized_nonempty TestData.wMemoSecret "p" "s" ["p", "p", "p"]
     (by decide) (by decide)⟩

theorem renderSegs_no_op (w : World) (vars : List (String × String)) :
    ∀ (segs : List Seg) (s : St), (∀ p, Seg.op p ∉ segs) →
    ∃ t, renderSegs w vars segs s = (Except.ok t, s) := by
  intro segs
  induction segs with
  | nil => intro s _; exact ⟨"", rfl⟩
  | cons seg rest ih =>
    intro s hno
    have hrest : ∀ p, Seg.op p ∉ rest := fun p hm => hno p (List.mem_cons_of_mem _ hm)
    obtain ⟨t, ht⟩ := ih s hrest
    cases seg with
    | lit u => exact ⟨u ++ t, by simp [renderSegs, evalSeg, ht]⟩
    | var n => exact ⟨(jsGet vars n).getD "" ++ t, by simp [renderSegs, evalSeg, ht]⟩
    | op p => exact absurd (List.mem_cons_self _ _) (hno p)

/-- C4 counterexample: with an override file present, rendering its
template still contacts the remote store when the template invokes the
op lookup — the claim that the remote store is never contacted
"regardless of the content of the template" fails. -/
theorem c4_override_op_still_fetches :
    TestData.wOverrideOp.overrideFile = some "tpl"
    ∧ (instanceRead TestData.wOverrideOp []).result = Except.ok "v"
    ∧ (instanceRead TestData.wOverrideOp []).st.log = ["p"] := by
  refine ⟨by decide, by decide, by decide⟩

/-- C4 (amended): when the override file exists and the config path is
set, the override contents are used verbatim as the raw document and
source selection performs no remote fetch; the remote store can still
be contacted while rendering, but is not contacted when the template
contains no op invocation. -/
theorem c4_override_verbatim (w : World) (vars : List (String × String)) (s : St)
    (c : String) (hpath : envSet w.opConfigPath) (hov : w.overrideFile = some c) :
    readWrapped w s = (Except.ok c, cacheStep w s)
    ∧ (cacheStep w s).log = s.log
    ∧ ((∀ p, Seg.op p ∉ w.tmplOf c) → (instanceRead w vars).st.log = []) := by
  refine ⟨?_, cacheStep_log w s, ?_⟩
  · unfold readWrapped
    simp [hpath, hov]
  · intro hno
    have hrw : readWrapped w initSt = (Except.ok c, cacheStep w initSt) := by
      unfold readWrapped
      simp [hpath, hov]
    obtain ⟨t, ht⟩ := renderSegs_no_op w vars (w.tmplOf c) (cacheStep w initSt) hno
    have hlog : (cacheStep w initSt).log = [] := by rw [cacheStep_log]; rfl
    unfold instanceRead
    by_cases hIV : envSet w.opCacheIV
    swap
    · simp [hIV, initSt]
    by_cases hTok : envSet w.opToken
    swap
    · simp [hIV, hTok, initSt]
    simp only [hIV, hTok, if_true]
    rw [hrw]
    dsimp only
    rw [show processTemplate w vars c (cacheStep w initSt)
          = (Except.ok t, cacheStep w initSt) from ht]
    exact hlog

/-- C4 witness: the amended theorem applied to a world with an override
file whose template performs no secret lookup. -/
theorem c4_override_verbatim_witness :
    envSet TestData.wOverridePlain.opConfigPath = true
    ∧ TestData.wOverridePlain.overrideFile = some "tpl"
    ∧ (readWrapped TestData.wOverridePlain initSt
        = (Except.ok "tpl", cacheStep TestData.wOverridePlain initSt)
      ∧ (cacheStep TestData.wOverridePlain initSt).log = initSt.log
      ∧ ((∀ p, Seg.op p ∉ TestData.wOverridePlain.tmplOf "tpl") →
          (instanceRead TestData.wOverridePlain []).st.log = [])) :=
  ⟨by decide, by decide,
   c4_override_verbatim TestData.wOverridePlain [] initSt "tpl" (by decide) (by decide)⟩

theorem read1Password_cacheFile_irrel (w : World) (s : St) (p : String) :
    read1Password { w with cacheFile := none } s p = read1Password w s p := rfl

/-- C8: a cache file whose contents fail to decode (no colon, empty or
garbage ciphertext, decryption throw, or parse throw) leaves the load
exactly as if no cache file existed: source selection proceeds
unchanged, and when no override file exists the raw document comes from
a fresh remote fetch of the configured path — the corrupt cache never
makes the load raise. -/
theorem c8_corrupt_cache_falls_through (w : World) (s : St) (c : String)
    (hcf : w.cacheFile = some c) (hfail : cacheDecodes w c = none) :
    readWrapped w s = readWrapped { w with cacheFile := none } s
    ∧ (w.overrideFile = none → envSet w.opConfigPath →
        readWrapped w s = read1Password w s (w.opConfigPath.getD "")) := by
  have hcs : cacheStep w s = s := by simp [cacheStep, hcf, hfail]
  have hcs2 : cacheStep { w with cacheFile := none } s = s := by simp [cacheStep]
  constructor
  · unfold readWrapped
    rw [hcs, hcs2]
    rfl
  · intro hov hp
    unfold readWrapped
    simp [hp, hov, hcs]

/-- C8 witness: a cache file holding garbage ciphertext, a colon and a
salt makes the load fall through to the remote fetch of the configured
document without raising. -/
theorem c8_corrupt_cache_falls_through_witness :
    TestData.wCorrupt.cacheFile = some "garbage:SALT"
    ∧ cacheDecodes TestData.wCorrupt "garbage:SALT" = none
    ∧ (readWrapped TestData.wCorrupt initSt).1 = Except.ok "DOC"
    ∧ (readWrapped TestData.wCorrupt initSt
        = readWrapped { TestData.wCorrupt with cacheFile := none } initSt
      ∧ (TestData.wCorrupt.overrideFile = none → envSet TestData.wCorrupt.opConfigPath →
          readWrapped TestData.wCorrupt initSt
            = read1Password TestData.wCorrupt initSt
                (TestData.wCorrupt.opConfigPath.getD ""))) :=
  ⟨by decide, by decide, by decide,
   c8_corrupt_cache_falls_through TestData.wCorrupt initSt "garbage:SALT"
     (by decide) (by decide)⟩

/-- C9 counterexample: the legacy loader's cache write reuses the salt
parsed from the pre-existing cache file — the written entry carries
`OLDSALT` from the file it read, not the freshly generated `NEWSALT`. -/
theorem c9_legacy_reuses_cache_salt :
    TestData.wLegacySalt.cacheFile = some "deadbeef:OLDSALT"
    ∧ TestData.wLegacySalt.freshSalt = "NEWSALT"
    ∧ (Legacy.readWrapped TestData.wLegacySalt).cacheWrite = some "RAW.tok-OLDSALT:OLDSALT"
    ∧ ("OLDSALT" : String) ≠ "NEWSALT" := by
  refine ⟨by decide, by decide, by decide, by decide⟩

/-- C6 counterexample: the caller whose static read performed the first
successful load receives the memo object itself, not a copy — after it
mutates the returned object, a later `readLoaded` caller observes the
tampered value instead of the originally loaded one. -/
theorem c6_first_caller_aliases_memo :
    (let firstLoad := staticReadFirst ⟨[], none⟩ "orig"
     let tampered := mutateObj firstLoad.1 firstLoad.2 "tampered"
     match readLoadedFn tampered with
     | Except.ok (m2, b) => m2.heap.getD b ""
     | Except.error _ => "") = "tampered"
    ∧ ("tampered" : String) ≠ "orig" := by
  refine ⟨by decide, by decide⟩

/-- C6 (amended): the memo is written by the first successful load, and
late readers (`readLoaded`) receive fresh deep copies — a distinct
object carrying the memo's value, whose mutation leaves the memo's
value unchanged; however, the caller that performed the first load
receives the memo object itself rather than an independent copy. -/
theorem c6_memo_copy_isolation (m : Mem) (a : Nat)
    (hm : m.memo = some a) (ha : a < m.heap.length) :
    (∀ (m0 : Mem) (v0 : String),
        (staticReadFirst m0 v0).1.memo = some (staticReadFirst m0 v0).2)
    ∧ ∃ m2 b, readLoadedFn m = Except.ok (m2, b)
        ∧ b ≠ a
        ∧ m2.heap.getD b "" = m.heap.getD a ""
        ∧ ∀ v2, (mutateObj m2 b v2).heap.getD a "" = m.heap.getD a "" := by
  constructor
  · intro m0 v0
    rfl
  · refine ⟨{ m with heap := m.heap ++ [m.heap.getD a ""] }, m.heap.length, ?_, ?_, ?_, ?_⟩
    · simp [readLoadedFn, hm, cloneVal]
    · omega
    · simp [List.getD_eq_getElem?_getD, List.getElem?_concat_length]
    · intro v2
      simp only [mutateObj, List.getD_eq_getElem?_getD]
      rw [List.getElem?_set_ne (by omega), List.getElem?_append_left ha]

/-- C6 witness: the amended theorem applied to a memoized process state
holding one config object. -/
theorem c6_memo_copy_isolation_witness :
    (⟨["x"], some 0⟩ : Mem).memo = some 0
    ∧ 0 < (⟨["x"], some 0⟩ : Mem).heap.length
    ∧ ((∀ (m0 : Mem) (v0 : String),
          (staticReadFirst m0 v0).1.memo = some (staticReadFirst m0 v0).2)
       ∧ ∃ m2 b, readLoadedFn (⟨["x"], some 0⟩ : Mem) = Except.ok (m2, b)
          ∧ b ≠ 0
          ∧ m2.heap.getD b "" = (⟨["x"], some 0⟩ : Mem).heap.getD 0 ""
          ∧ ∀ v2, (mutateObj m2 b v2).heap.getD 0 ""
              = (⟨["x"], some 0⟩ : Mem).heap.getD 0 "") :=
  ⟨rfl, by decide, c6_memo_copy_isolation ⟨["x"], some 0⟩ 0 rfl (by decide)⟩

/-- C9 (amended): every cache write performed by the current loader
uses the freshly generated random salt of that write — the written
contents are exactly the path cache encrypted under the key derived
from the token and the fresh salt, followed by a colon and that salt;
the legacy loader's write instead reuses the salt parsed from a
pre-existing cache file. -/
theorem c9_fresh_salt_per_write (w : World) (vars : List (String × String)) :
    (instanceRead w vars).cacheWrite = none
    ∨ (instanceRead w vars).cacheWrite
      = some (w.enc (w.serPC (instanceRead w vars).st.pathCache)
               (w.scrypt (tokenStr w) w.freshSalt) ++ ":" ++ w.freshSalt) := by
  unfold instanceRead
  by_cases hIV : envSet w.opCacheIV
  · by_cases hTok : envSet w.opToken
    · rcases hrw : readWrapped w initSt with ⟨res, s⟩
      rcases res with e | raw
      · simp [hIV, hTok, hrw]
      · rcases hpt : processTemplate w vars raw s with ⟨res2, s2⟩
        rcases res2 with e | rendered
        · simp [hIV, hTok, hrw, hpt]
        · by_cases hcache : envSet w.opConfigCache
          · right
            simp [hIV, hTok, hrw, hpt, hcache]
          · left
            simp [hIV, hTok, hrw, hpt, hcache]
    · simp [hIV, hTok]
  · simp [hIV]

end CxConfig

namespace CryptoBox

theorem toBlocksAux_congr : ∀ (f1 f2 : Nat) (l : List Nat),
    l.length ≤ f1 → l.length ≤ f2 → toBlocksAux f1 l = toBlocksAux f2 l := by
  intro f1
  induction f1 with
  | zero =>
    intro f2 l h1 _
    have hl : l = [] := List.length_eq_zero.mp (Nat.le_zero.mp h1)
    subst hl
    cases f2 with
    | zero => rfl
    | succ j => simp [toBlocksAux]
  | succ k ih =>
    intro f2 l h1 h2
    cases l with
    | nil =>
      cases f2 with
      | zero => simp [toBlocksAux]
      | succ j => simp [toBlocksAux]
    | cons x xs =>
      cases f2 with
      | zero =>
        simp only [List.length_cons] at h2
        omega
      | succ j =>
        simp only [toBlocksAux]
        rw [if_neg (by simp), if_neg (by simp)]
        congr 1
        apply ih
        · simp only [List.length_drop, List.length_cons] at *
          omega
        · simp only [List.length_drop, List.length_cons] at *
          omega

theorem toBlocks_eq (l : List Nat) :
    toBlocks l = if l = [] then [] else l.take 16 :: toBlocks (l.drop 16) := by
  by_cases h : l = []
  · subst h
    rfl
  · rw [if_neg h]
    unfold toBlocks
    cases l with
    | nil => exact absurd rfl h
    | cons x xs =>
      simp only [List.length_cons, toBlocksAux]
      rw [if_neg (by simp)]
      congr 1
      apply toBlocksAux_congr
      · simp only [List.length_drop, List.length_cons]
        omega
      · exact Nat.le_refl _

theorem toBlocks_ne_nil (l : List Nat) (h : l ≠ []) : toBlocks l ≠ [] := by
  rw [toBlocks_eq, if_neg h]
  simp

theorem flatten_toBlocks_aux : ∀ (n : Nat) (l : List Nat), l.length ≤ n →
    (toBlocks l).flatten = l := by
  intro n
  induction n with
  | zero =>
    intro l h
    have hl : l = [] := List.length_eq_zero.mp (Nat.le_zero.mp h)
    subst hl
    rfl
  | succ k ih =>
    intro l h
    rw [toBlocks_eq]
    by_cases hl : l = []
    · simp [hl]
    · rw [if_neg hl]
      simp only [List.flatten_cons]
      rw [ih (l.drop 16) (by
        have h1 := List.length_pos.mpr hl
        simp only [List.length_drop]
        omega)]
      exact List.take_append_drop 16 l

theorem flatten_toBlocks (l : List Nat) : (toBlocks l).flatten = l :=
  flatten_toBlocks_aux l.length l (Nat.le_refl _)

theorem toBlocks_blocks_length_aux : ∀ (n : Nat) (l : List Nat), l.length ≤ n →
    16 ∣ l.length → ∀ b ∈ toBlocks l, b.length = 16 := by
  intro n
  induction n with
  | zero =>
    intro l h _ b hb
    have hl : l = [] := List.length_eq_zero.mp (Nat.le_zero.mp h)
    subst hl
    simp [toBlocks, toBlocksAux] at hb
  | succ k ih =>
    intro l h hdvd b hb
    rw [toBlocks_eq] at hb
    by_cases hl : l = []
    · simp [hl] at hb
    · rw [if_neg hl] at hb
      have hlen : 16 ≤ l.length := Nat.le_of_dvd (List.length_pos.mpr hl) hdvd
      rcases List.mem_cons.mp hb with hb1 | hb2
      · subst hb1
        simp only [List.length_take]
        omega
      · refine ih (l.drop 16) ?_ ?_ b hb2
        · simp only [List.length_drop]
          omega
        · simp only [List.length_drop]
          exact Nat.dvd_sub' hdvd (Nat.dvd_refl 16)

theorem toBlocks_blocks_length (l : List Nat) (hdvd : 16 ∣ l.length) :
    ∀ b ∈ toBlocks l, b.length = 16 :=
  toBlocks_blocks_length_aux l.length l (Nat.le_refl _) hdvd

theorem toBlocks_mem_bound_aux : ∀ (n : Nat) (l : List Nat), l.length ≤ n →
    (∀ x ∈ l, x < 256) → ∀ b ∈ toBlocks l, ∀ x ∈ b, x < 256 := by
  intro n
  induction n with
  | zero =>
    intro l h _ b hb
    have hl : l = [] := List.length_eq_zero.mp (Nat.le_zero.mp h)
    subst hl
    simp [toBlocks, toBlocksAux] at hb
  | succ k ih =>
    intro l h hbd b hb
    rw [toBlocks_eq] at hb
    by_cases hl : l = []
    · simp [hl] at hb
    · rw [if_neg hl] at hb
      rcases List.mem_cons.mp hb with hb1 | hb2
      · subst hb1
        intro x hx
        exact hbd x (List.take_subset 16 l hx)
      · refine ih (l.drop 16) ?_ ?_ b hb2
        · have h1 := List.length_pos.mpr hl
          simp only [List.length_drop]
          omega
        · intro x hx
          exact hbd x (List.drop_subset 16 l hx)

theorem toBlocks_mem_bound (l : List Nat) (hbd : ∀ x ∈ l, x < 256) :
    ∀ b ∈ toBlocks l, ∀ x ∈ b, x < 256 :=
  toBlocks_mem_bound_aux l.length l (Nat.le_refl _) hbd

theorem toBlocks_flatten : ∀ (bs : List (List Nat)), (∀ b ∈ bs, b.length = 16) →
    toBlocks bs.flatten = bs := by
  intro bs
  induction bs with
  | nil => intro _; rfl
  | cons b rest ih =>
    intro h
    have hb : b.length = 16 := h b (List.mem_cons_self _ _)
    have hbne : b ++ rest.flatten ≠ [] := by
      intro hc
      have hb0 : b = [] := (List.append_eq_nil.mp hc).1
      rw [hb0] at hb
      simp at hb
    rw [List.flatten_cons, toBlocks_eq, if_neg hbne, List.take_left' hb, List.drop_left' hb,
      ih (fun b' hb' => h b' (List.mem_cons_of_mem _ hb'))]

theorem length_xorBlock (a b : List Nat) :
    (xorBlock a b).length = min a.length b.length := by
  simp [xorBlock]

theorem xorBlock_cancel (a : List Nat) : ∀ (b : List Nat), a.length = b.length →
    xorBlock a (xorBlock a b) = b := by
  induction a with
  | nil =>
    intro b h
    cases b with
    | nil => rfl
    | cons y b => simp at h
  | cons x a ih =>
    intro b h
    cases b with
    | nil => simp at h
    | cons y b =>
      simp only [xorBlock, List.zipWith_cons_cons]
      rw [show Nat.xor x (Nat.xor x y) = y from Nat.xor_cancel_left x y]
      have hrec := ih b (by simpa using h)
      simp only [xorBlock] at hrec
      rw [hrec]

theorem mem_xorBlock_bound : ∀ (a b : List Nat), (∀ x ∈ a, x < 256) →
    (∀ x ∈ b, x < 256) → ∀ x ∈ xorBlock a b, x < 256
  | [], _, _, _ => by
    intro x hx
    simp [xorBlock] at hx
  | _ :: _, [], _, _ => by
    intro x hx
    simp [xorBlock] at hx
  | c :: a, d :: b, ha, hb => by
    intro x hx
    simp only [xorBlock, List.zipWith_cons_cons, List.mem_cons] at hx
    rcases hx with h1 | h2
    · subst h1
      have hc : c < 2 ^ 8 := by simpa using ha c (by simp)
      have hd : d < 2 ^ 8 := by simpa using hb d (by simp)
      simpa using Nat.xor_lt_two_pow hc hd
    · exact mem_xorBlock_bound a b (fun y hy => ha y (by simp [hy]))
        (fun y hy => hb y (by simp [hy])) x h2

theorem cbcDec_cbcEnc (E D : List Nat → List Nat)
    (hInv : ∀ b, b.length = 16 → D (E b) = b)
    (hLen : ∀ b, b.length = 16 → (E b).length = 16) :
    ∀ (bs : List (List Nat)) (iv : List Nat), iv.length = 16 →
    (∀ b ∈ bs, b.length = 16) →
    cbcDecBlocks D iv (cbcEncBlocks E iv bs) = bs := by
  intro bs
  induction bs with
  | nil => intro iv _ _; rfl
  | cons b rest ih =>
    intro iv hiv hb
    have hb16 : b.length = 16 := hb b (List.mem_cons_self _ _)
    have hxl : (xorBlock iv b).length = 16 := by
      rw [length_xorBlock, hiv, hb16]
      omega
    simp only [cbcEncBlocks, cbcDecBlocks]
    rw [hInv _ hxl, xorBlock_cancel iv b (by rw [hiv, hb16]),
      ih _ (hLen _ hxl) (fun b' h' => hb b' (List.mem_cons_of_mem _ h'))]

theorem cbcEnc_blocks_spec (E : List Nat → List Nat)
    (hLen : ∀ b, b.length = 16 → (E b).length = 16)
    (hByte : ∀ b, b.length = 16 → (∀ x ∈ b, x < 256) → ∀ x ∈ E b, x < 256) :
    ∀ (bs : List (List Nat)) (iv : List Nat), iv.length = 16 → (∀ x ∈ iv, x < 256) →
    (∀ b ∈ bs, b.length = 16 ∧ ∀ x ∈ b, x < 256) →
    ∀ c ∈ cbcEncBlocks E iv bs, c.length = 16 ∧ ∀ x ∈ c, x < 256 := by
  intro bs
  induction bs with
  | nil =>
    intro iv _ _ _ c hc
    simp [cbcEncBlocks] at hc
  | cons b rest ih =>
    intro iv hiv hivb hbs c hc
    obtain ⟨hb16, hbb⟩ := hbs b (List.mem_cons_self _ _)
    have hx16 : (xorBlock iv b).length = 16 := by
      rw [length_xorBlock, hiv, hb16]
      omega
    have hxb : ∀ x ∈ xorBlock iv b, x < 256 := mem_xorBlock_bound iv b hivb hbb
    have hc16 : (E (xorBlock iv b)).length = 16 := hLen _ hx16
    have hcb : ∀ x ∈ E (xorBlock iv b), x < 256 := hByte _ hx16 hxb
    simp only [cbcEncBlocks, List.mem_cons] at hc
    rcases hc with h1 | h2
    · subst h1
      exact ⟨hc16, hcb⟩
    · exact ih (E (xorBlock iv b)) hc16 hcb
        (fun b' h' => hbs b' (List.mem_cons_of_mem _ h')) c h2

theorem length_cbcEncBlocks (E : List Nat → List Nat) :
    ∀ (bs : List (List Nat)) (iv : List Nat),
    (cbcEncBlocks E iv bs).length = bs.length := by
  intro bs
  induction bs with
  | nil => intro iv; rfl
  | cons b rest ih => intro iv; simp [cbcEncBlocks, ih]

theorem flatten_length_of_all16 : ∀ (bs : List (List Nat)),
    (∀ b ∈ bs, b.length = 16) → bs.flatten.length = 16 * bs.length := by
  intro bs
  induction bs with
  | nil => intro _; rfl
  | cons b rest ih =>
    intro h
    have hb : b.length = 16 := h b (List.mem_cons_self _ _)
    simp only [List.flatten_cons, List.length_append, List.length_cons,
      ih (fun b' hb' => h b' (List.mem_cons_of_mem _ hb')), hb]
    ring

theorem pkcs7pad_length (l : List Nat) :
    (pkcs7pad l).length = l.length + (16 - l.length % 16) := by
  simp [pkcs7pad]

theorem pkcs7pad_length_dvd (l : List Nat) : 16 ∣ (pkcs7pad l).length := by
  rw [pkcs7pad_length]
  have h2 := Nat.div_add_mod l.length 16
  have hmod : l.length % 16 < 16 := Nat.mod_lt _ (by norm_num)
  exact ⟨l.length / 16 + 1, by omega⟩

theorem pkcs7pad_ne_nil (l : List Nat) : pkcs7pad l ≠ [] := by
  intro h
  have hlen := congrArg List.length h
  have hmod : l.length % 16 < 16 := Nat.mod_lt _ (by norm_num)
  simp [pkcs7pad] at hlen
  omega

theorem pkcs7pad_mem_bound (l : List Nat) (h : ∀ x ∈ l, x < 256) :
    ∀ x ∈ pkcs7pad l, x < 256 := by
  intro x hx
  rcases List.mem_append.mp hx with h1 | h2
  · exact h x h1
  · have hx2 := List.eq_of_mem_replicate h2
    omega

theorem pkcs7unpad_pad (l : List Nat) : pkcs7unpad (pkcs7pad l) = some l := by
  have hmod : l.length % 16 < 16 := Nat.mod_lt _ (by norm_num)
  have hlast : (pkcs7pad l).getLast? = some (16 - l.length % 16) := by
    unfold pkcs7pad
    rw [List.getLast?_append, List.getLast?_replicate, if_neg (by omega)]
    rfl
  have hlen : (pkcs7pad l).length = l.length + (16 - l.length % 16) :=
    pkcs7pad_length l
  have hsub : (pkcs7pad l).length - (16 - l.length % 16) = l.length := by omega
  simp only [pkcs7unpad]
  rw [hlast]
  dsimp only
  rw [if_neg (by omega), hsub]
  unfold pkcs7pad
  have hall : ((List.replicate (16 - l.length % 16) (16 - l.length % 16)).all
      fun x => x == 16 - l.length % 16) = true := by
    simp only [List.all_eq_true]
    intro x hx
    have hx2 := List.eq_of_mem_replicate hx
    simp [hx2]
  rw [List.drop_left, List.take_left, if_pos hall]

theorem hexDigitVal_hexDigit (n : Nat) (h : n < 16) :
    hexDigitVal (hexDigit n) = some n := by
  interval_cases n <;> decide

theorem hexDecodeChars_hexEncode (l : List Nat) (h : ∀ x ∈ l, x < 256) :
    hexDecodeChars (l.map hexByte).flatten = some l := by
  induction l with
  | nil => rfl
  | cons b rest ih =>
    have hb : b < 256 := h b (by simp)
    have h1 : b / 16 < 16 := by omega
    have h2 : b % 16 < 16 := by omega
    simp only [List.map_cons, List.flatten_cons, hexByte, List.cons_append, List.nil_append]
    simp only [hexDecodeChars]
    rw [hexDigitVal_hexDigit _ h1, hexDigitVal_hexDigit _ h2,
      ih (fun x hx => h x (by simp [hx]))]
    dsimp only
    have hbeq : 16 * (b / 16) + b % 16 = b := by omega
    rw [hbeq]

theorem toList_hexEncode (l : List Nat) :
    (hexEncode l).toList = (l.map hexByte).flatten := rfl

theorem decrypt_encrypt (blockE blockD : List Nat → List Nat → List Nat)
    (iv key text : List Nat)
    (hInv : ∀ b, b.length = 16 → blockD key (blockE key b) = b)
    (hLen : ∀ b, b.length = 16 → (blockE key b).length = 16)
    (hByte : ∀ b, b.length = 16 → (∀ x ∈ b, x < 256) → ∀ x ∈ blockE key b, x < 256)
    (hIV : iv.length = 16) (hIVb : ∀ x ∈ iv, x < 256)
    (hText : ∀ x ∈ text, x < 256) :
    decrypt blockD iv key (encrypt blockE iv key text) = some text := by
  have hpdvd := pkcs7pad_length_dvd text
  have hpb := pkcs7pad_mem_bound text hText
  have hblocks16 := toBlocks_blocks_length (pkcs7pad text) hpdvd
  have hblocksb := toBlocks_mem_bound (pkcs7pad text) hpb
  have hct : ∀ c ∈ cbcEncBlocks (blockE key) iv (toBlocks (pkcs7pad text)),
      c.length = 16 ∧ ∀ x ∈ c, x < 256 :=
    cbcEnc_blocks_spec (blockE key) hLen hByte _ iv hIV hIVb
      (fun b hb => ⟨hblocks16 b hb, hblocksb b hb⟩)
  have hctb : ∀ x ∈ (cbcEncBlocks (blockE key) iv (toBlocks (pkcs7pad text))).flatten,
      x < 256 := by
    intro x hx
    rcases List.mem_flatten.mp hx with ⟨c, hc, hxc⟩
    exact (hct c hc).2 x hxc
  have hflatlen : (cbcEncBlocks (blockE key) iv (toBlocks (pkcs7pad text))).flatten.length
      = 16 * (cbcEncBlocks (blockE key) iv (toBlocks (pkcs7pad text))).length :=
    flatten_length_of_all16 _ (fun c hc => (hct c hc).1)
  have hctlen : (cbcEncBlocks (blockE key) iv (toBlocks (pkcs7pad text))).length
      = (toBlocks (pkcs7pad text)).length := length_cbcEncBlocks _ _ iv
  have hbne : (toBlocks (pkcs7pad text)).length ≠ 0 :=
    fun hc => toBlocks_ne_nil (pkcs7pad text) (pkcs7pad_ne_nil text)
      (List.length_eq_zero.mp hc)
  simp only [decrypt, encrypt, toList_hexEncode]
  rw [hexDecodeChars_hexEncode _ hctb]
  dsimp only
  rw [if_neg (by
    rw [hflatlen, hctlen]
    push_neg
    constructor
    · intro hc
      have := congrArg List.length hc
      simp only [List.length_nil] at this
      rw [hflatlen, hctlen] at this
      omega
    · omega)]
  rw [toBlocks_flatten _ (fun c hc => (hct c hc).1)]
  rw [cbcDec_cbcEnc (blockE key) (blockD key) hInv hLen _ iv hIV hblocks16]
  rw [flatten_toBlocks]
  exact pkcs7unpad_pad text

theorem xorKeyStream_length (key : List Nat) (hk : 16 ≤ key.length) (b : List Nat)
    (hb : b.length = 16) : (xorKeyStream key b).length = 16 := by
  simp only [xorKeyStream, List.length_zipWith, List.length_take, hb]
  omega

theorem xorKeyStream_inv (key : List Nat) (hk : 16 ≤ key.length) (b : List Nat)
    (hb : b.length = 16) : xorKeyStream key (xorKeyStream key b) = b := by
  have h1 : (key.take 16).length = b.length := by
    simp only [List.length_take, hb]
    omega
  exact xorBlock_cancel (key.take 16) b h1

theorem xorKeyStream_bound (key : List Nat) (hkb : ∀ x ∈ key, x < 256) (b : List Nat)
    (hbb : ∀ x ∈ b, x < 256) : ∀ x ∈ xorKeyStream key b, x < 256 :=
  mem_xorBlock_bound (key.take 16) b
    (fun x hx => hkb x (List.take_subset _ _ hx)) hbb

end CryptoBox

namespace CryptoBox

/-- C7 counterexample: decrypting with a key derived from a different
salt is not guaranteed to fail — with a concrete keyed block cipher and
two distinct salts, decryption under the wrong key passes the padding
check and silently returns different bytes instead of failing. -/
theorem c7_wrong_salt_decrypt_can_succeed :
    TestData.saltA ≠ TestData.saltB
    ∧ decrypt xorKeyStream TestData.iv0 (toyKdf TestData.tok0 TestData.saltB)
        (encrypt xorKeyStream TestData.iv0 (toyKdf TestData.tok0 TestData.saltA) [65])
      = some [64]
    ∧ some [64] ≠ some ([65] : List Nat) := by
  refine ⟨by decide, by decide, by decide⟩

/-- C7 (amended): for every plaintext and every key,
`decrypt(encrypt(text, key), key) = text` (for any block cipher whose
keyed encryption is inverted by its keyed decryption on 16-byte
blocks); decrypting with a key derived from a different salt is not
guaranteed to fail, and when cache decryption does fail the failure is
classified as a cache miss — the load proceeds (here: the override
document is returned and the instance state is untouched) rather than
propagating the error. -/
theorem c7_roundtrip_and_failure_classified
    (blockE blockD : List Nat → List Nat → List Nat) (iv key text : List Nat)
    (w : CxConfig.World) (s : CxConfig.St) (ovr c : String)
    (hInv : ∀ b, b.length = 16 → blockD key (blockE key b) = b)
    (hLen : ∀ b, b.length = 16 → (blockE key b).length = 16)
    (hByte : ∀ b, b.length = 16 → (∀ x ∈ b, x < 256) → ∀ x ∈ blockE key b, x < 256)
    (hIV : iv.length = 16) (hIVb : ∀ x ∈ iv, x < 256)
    (hText : ∀ x ∈ text, x < 256)
    (hovr : w.overrideFile = some ovr) (hpath : CxConfig.envSet w.opConfigPath)
    (hcf : w.cacheFile = some c) (hfail : CxConfig.cacheDecodes w c = none) :
    decrypt blockD iv key (encrypt blockE iv key text) = some text
    ∧ CxConfig.readWrapped w s = (Except.ok ovr, s) := by
  constructor
  · exact decrypt_encrypt blockE blockD iv key text hInv hLen hByte hIV hIVb hText
  · have hcs : CxConfig.cacheStep w s = s := by
      simp [CxConfig.cacheStep, hcf, hfail]
    unfold CxConfig.readWrapped
    simp [hpath, hovr, hcs]

/-- C7 witness: the amended theorem at a concrete xor block cipher, a
key derived from concrete token and salt bytes, a 16-byte IV, and a
world whose cache file fails to decrypt while an override document is
present. -/
theorem c7_roundtrip_and_failure_classified_witness :
    TestData.ivW.length = 16
    ∧ CxConfig.cacheDecodes TestData.wC7w "bad:S" = none
    ∧ (decrypt xorKeyStream TestData.ivW (toyKdf TestData.tokW TestData.saltW)
        (encrypt xorKeyStream TestData.ivW (toyKdf TestData.tokW TestData.saltW)
          TestData.textW)
        = some TestData.textW
      ∧ CxConfig.readWrapped TestData.wC7w CxConfig.initSt
          = (Except.ok "OVR", CxConfig.initSt)) :=
  ⟨by decide, by decide,
   c7_roundtrip_and_failure_classified xorKeyStream xorKeyStream TestData.ivW
     (toyKdf TestData.tokW TestData.saltW) TestData.textW
     TestData.wC7w CxConfig.initSt "OVR" "bad:S"
     (fun b hb => xorKeyStream_inv (toyKdf TestData.tokW TestData.saltW) (by decide) b hb)
     (fun b hb => xorKeyStream_length (toyKdf TestData.tokW TestData.saltW) (by decide) b hb)
     (fun b _ hbb => xorKeyStream_bound (toyKdf TestData.tokW TestData.saltW) (by decide) b hbb)
     (by decide) (by decide) (by decide)
     (by decide) (by decide) (by decide) (by decide)⟩

end CryptoBox

namespace CxConfig

theorem takeWhile_colon_eq_self (b : List Char) (hb : (':' : Char) ∉ b) :
    b.takeWhile (fun c => c != ':') = b := by
  induction b with
  | nil => rfl
  | cons c cs ih =>
    have hc : c ≠ ':' := fun h => hb (by simp [h])
    rw [List.takeWhile_cons_of_pos (by simp [hc]),
      ih (fun h => hb (List.mem_cons_of_mem _ h))]

theorem upToColon_append : ∀ (a b : List Char), (':' : Char) ∉ a →
    upToColon (a ++ ':' :: b) = a := by
  intro a
  induction a with
  | nil =>
    intro b _
    simp [upToColon]
  | cons c cs ih =>
    intro b ha
    have hc : c ≠ ':' := fun h => ha (by simp [h])
    simp only [upToColon, List.cons_append]
    rw [List.takeWhile_cons_of_pos (by simp [hc])]
    have hih := ih b (fun h => ha (List.mem_cons_of_mem _ h))
    simp only [upToColon] at hih
    rw [hih]

theorem afterColon_append : ∀ (a b : List Char), (':' : Char) ∉ a → (':' : Char) ∉ b →
    afterColon (a ++ ':' :: b) = some b := by
  intro a
  induction a with
  | nil =>
    intro b _ hb
    simp only [afterColon, List.nil_append]
    rw [List.dropWhile_cons_of_neg (by simp)]
    dsimp only
    rw [takeWhile_colon_eq_self b hb]
  | cons c cs ih =>
    intro b ha hb
    have hc : c ≠ ':' := fun h => ha (by simp [h])
    have hih := ih b (fun h => ha (List.mem_cons_of_mem _ h)) hb
    simp only [afterColon, List.cons_append] at hih ⊢
    rw [List.dropWhile_cons_of_pos (by simp [hc])]
    exact hih

theorem toList_append_colon (a b : String) :
    (a ++ ":" ++ b).toList = a.toList ++ ':' :: b.toList := by
  show (a ++ ":" ++ b).data = a.data ++ ':' :: b.data
  rw [String.data_append, String.data_append]
  simp

theorem append_colon_ne_empty (a b : String) : a ++ ":" ++ b ≠ "" := by
  intro h
  have h2 := congrArg String.toList h
  rw [toList_append_colon] at h2
  simp [String.toList] at h2

theorem mk_toList (s : String) : String.mk s.toList = s := rfl

theorem cacheDecodes_append (w : World) (ct salt : String)
    (hct : ct ≠ "") (hctc : (':' : Char) ∉ ct.toList)
    (hsc : (':' : Char) ∉ salt.toList) :
    cacheDecodes w (ct ++ ":" ++ salt)
      = (w.dec ct (w.scrypt (tokenStr w) salt)).bind w.deSerPC := by
  unfold cacheDecodes
  rw [if_neg (append_colon_ne_empty ct salt),
    show (ct ++ ":" ++ salt).toList = ct.toList ++ ':' :: salt.toList from
      toList_append_colon ct salt,
    afterColon_append _ _ hctc hsc]
  dsimp only
  rw [upToColon_append _ _ hctc, mk_toList ct, mk_toList salt, if_neg hct]

theorem renderSegs_cached_state (w : World) (vars : List (String × String))
    (v : String) (hv : v ≠ "") :
    ∀ (segs : List Seg) (s : St),
    jsGet s.pathCache (w.opConfigPath.getD "") = some v →
    ∃ t, renderSegs w vars segs s = (Except.ok t, s) := by
  intro segs
  induction segs with
  | nil => intro s _; exact ⟨"", rfl⟩
  | cons seg rest ih =>
    intro s hcache
    obtain ⟨t, ht⟩ := ih s hcache
    cases seg with
    | lit u => exact ⟨u ++ t, by simp [renderSegs, evalSeg, ht]⟩
    | var n =>
      exact ⟨(jsGet vars n).getD "" ++ t, by simp [renderSegs, evalSeg, ht]⟩
    | op p =>
      have hop : opFilter w s p = (Except.ok v, s) := by
        simp [opFilter, read1Password, hcache, hv]
      exact ⟨v ++ t, by simp [renderSegs, evalSeg, hop, ht]⟩

theorem readWrapped_from_cache (w : World) (pc : List (String × String))
    (cfg doc : String)
    (hpath : w.opConfigPath = some cfg) (hcfg : cfg ≠ "")
    (hov : w.overrideFile = none)
    (hcf : ∃ c, w.cacheFile = some c ∧ cacheDecodes w c = some pc)
    (hjs : jsGet pc cfg = some doc) (hdoc : doc ≠ "") :
    readWrapped w initSt = (Except.ok doc, ⟨pc, []⟩) := by
  obtain ⟨c, hc, hcd⟩ := hcf
  have hcs : cacheStep w initSt = ⟨pc, []⟩ := by
    simp [cacheStep, hc, hcd, initSt]
  unfold readWrapped
  rw [if_pos (by rw [hpath]; exact envSet_some hcfg), hov]
  dsimp only
  rw [hcs]
  simp [read1Password, hpath, hjs, hdoc]

theorem instanceRead_cached_log (w : World) (vars2 : List (String × String))
    (pc : List (String × String)) (cfg doc : String)
    (hIV : envSet w.opCacheIV) (hTok : envSet w.opToken)
    (hpath : w.opConfigPath = some cfg) (hcfg : cfg ≠ "")
    (hov : w.overrideFile = none)
    (hcf : ∃ c, w.cacheFile = some c ∧ cacheDecodes w c = some pc)
    (hjs : jsGet pc cfg = some doc) (hdoc : doc ≠ "") :
    (readWrapped w initSt).1 = Except.ok doc
    ∧ (instanceRead w vars2).st.log = [] := by
  have hrw := readWrapped_from_cache w pc cfg doc hpath hcfg hov hcf hjs hdoc
  constructor
  · rw [hrw]
  · obtain ⟨t2, ht2⟩ := renderSegs_cached_state w vars2 doc hdoc (w.tmplOf doc)
      ⟨pc, []⟩ (by simpa [hpath] using hjs)
    unfold instanceRead
    rw [if_pos hIV, if_pos hTok, hrw]
    dsimp only
    rw [show processTemplate w vars2 doc ⟨pc, []⟩ = (Except.ok t2, ⟨pc, []⟩) from ht2]

end CxConfig

namespace CxConfig

/-- C10 (amended): a load that fetches the document remotely stores it
in the per-load path cache keyed by the configured path, and (with
caching enabled) writes the encrypted serialized path cache — document
included — as the cache file; a later load that decrypts that cache
file obtains the document from the reconstructed path cache without any
remote fetch, provided the document is a non-empty string.  (An
empty-string document is persisted but re-fetched, because the cache
lookup tests JS truthiness.) -/
theorem c10_cache_roundtrip (w : World) (vars vars2 : List (String × String))
    (cfg doc : String)
    (hIV : envSet w.opCacheIV) (hTok : envSet w.opToken)
    (hpath : w.opConfigPath = some cfg) (hcfg : cfg ≠ "")
    (hov : w.overrideFile = none) (hcf : w.cacheFile = none)
    (hcache : envSet w.opConfigCache)
    (hres : w.resolve cfg = some doc) (hdoc : doc ≠ "")
    (hdec : w.dec (w.enc (w.serPC (instanceRead w vars).st.pathCache)
        (w.scrypt (tokenStr w) w.freshSalt)) (w.scrypt (tokenStr w) w.freshSalt)
        = some (w.serPC (instanceRead w vars).st.pathCache))
    (hdeser : w.deSerPC (w.serPC (instanceRead w vars).st.pathCache)
        = some (instanceRead w vars).st.pathCache)
    (hctne : w.enc (w.serPC (instanceRead w vars).st.pathCache)
        (w.scrypt (tokenStr w) w.freshSalt) ≠ "")
    (hctcolon : (':' : Char) ∉ (w.enc (w.serPC (instanceRead w vars).st.pathCache)
        (w.scrypt (tokenStr w) w.freshSalt)).toList)
    (hsaltcolon : (':' : Char) ∉ w.freshSalt.toList) :
    jsGet (instanceRead w vars).st.pathCache cfg = some doc
    ∧ (instanceRead w vars).cacheWrite
        = some (w.enc (w.serPC (instanceRead w vars).st.pathCache)
            (w.scrypt (tokenStr w) w.freshSalt) ++ ":" ++ w.freshSalt)
    ∧ (readWrapped { w with
          cacheFile := (instanceRead w vars).cacheWrite,
          resolve := fun _ => none } initSt).1 = Except.ok doc
    ∧ (instanceRead { w with
          cacheFile := (instanceRead w vars).cacheWrite,
          resolve := fun _ => none } vars2).st.log = [] := by
  have hpathset : envSet w.opConfigPath := by
    rw [hpath]
    exact envSet_some hcfg
  have hrw1 : readWrapped w initSt = (Except.ok doc, ⟨[(cfg, doc)], [cfg]⟩) := by
    unfold readWrapped
    rw [if_pos hpathset, hov]
    dsimp only
    have hcs : cacheStep w initSt = initSt := by simp [cacheStep, hcf]
    rw [hcs]
    simp [read1Password, hpath, initSt, jsGet, fetchSecret, hres, jsSet]
  obtain ⟨t, ht⟩ := renderSegs_cached_state w vars doc hdoc (w.tmplOf doc)
      ⟨[(cfg, doc)], [cfg]⟩ (by simp [hpath, jsGet])
  have hout1 : instanceRead w vars = ⟨Except.ok t, ⟨[(cfg, doc)], [cfg]⟩,
      some (w.enc (w.serPC [(cfg, doc)]) (w.scrypt (tokenStr w) w.freshSalt)
        ++ ":" ++ w.freshSalt)⟩ := by
    unfold instanceRead
    rw [if_pos hIV, if_pos hTok, hrw1]
    dsimp only
    rw [show processTemplate w vars doc ⟨[(cfg, doc)], [cfg]⟩
        = (Except.ok t, ⟨[(cfg, doc)], [cfg]⟩) from ht]
    dsimp only
    rw [if_pos hcache]
  have hpc1 : (instanceRead w vars).st.pathCache = [(cfg, doc)] := by rw [hout1]
  have hcw : (instanceRead w vars).cacheWrite
      = some (w.enc (w.serPC [(cfg, doc)]) (w.scrypt (tokenStr w) w.freshSalt)
        ++ ":" ++ w.freshSalt) := by rw [hout1]
  rw [hpc1] at hdec hdeser hctne hctcolon
  have hcd : cacheDecodes { w with
        cacheFile := some (w.enc (w.serPC [(cfg, doc)])
          (w.scrypt (tokenStr w) w.freshSalt) ++ ":" ++ w.freshSalt),
        resolve := fun _ => none }
      (w.enc (w.serPC [(cfg, doc)]) (w.scrypt (tokenStr w) w.freshSalt)
        ++ ":" ++ w.freshSalt) = some [(cfg, doc)] := by
    rw [cacheDecodes_append _ _ _ hctne hctcolon hsaltcolon]
    show (w.dec (w.enc (w.serPC [(cfg, doc)]) (w.scrypt (tokenStr w) w.freshSalt))
        (w.scrypt (tokenStr w) w.freshSalt)).bind w.deSerPC = some [(cfg, doc)]
    rw [hdec, Option.some_bind]
    exact hdeser
  have hboth := instanceRead_cached_log { w with cacheFile := some (w.enc (w.serPC [(cfg, doc)]) (w.scrypt (tokenStr w) w.freshSalt) ++ ":" ++ w.freshSalt), resolve := fun _ => none } vars2 [(cfg, doc)] cfg doc hIV hTok hpath hcfg hov ⟨_, rfl, hcd⟩ (by simp [jsGet]) hdoc
  refine ⟨?_, ?_, ?_, ?_⟩
  · rw [hpc1]
    simp [jsGet]
  · rw [hcw, hpc1]
  · rw [hcw]
    exact hboth.1
  · rw [hcw]
    exact hboth.2

end CxConfig

namespace CxConfig

/-- C10 counterexample: when the remotely fetched document is the empty
string, it is stored in the path cache and persisted in the cache file,
but the later load that successfully decrypts the cache still performs
a remote fetch for the document — the truthiness-based cache lookup
treats the empty entry as absent. -/
theorem c10_empty_document_refetched :
    TestData.wRoundEmpty.resolve "p" = some ""
    ∧ (instanceRead TestData.wRoundEmpty []).st.pathCache = [("p", "")]
    ∧ (instanceRead TestData.wRoundEmpty []).cacheWrite = some "EJ:SALT9"
    ∧ TestData.wRoundEmpty2.cacheFile = some "EJ:SALT9"
    ∧ cacheDecodes TestData.wRoundEmpty2 "EJ:SALT9" = some [("p", "")]
    ∧ (instanceRead TestData.wRoundEmpty2 []).st.log = ["p"] := by
  refine ⟨by decide, by decide, by decide, by decide, by decide, by decide⟩

/-- C10 witness: the amended round-trip theorem at a concrete world
with a non-empty document — the second load reads the document from the
decrypted cache with no remote fetch even though its remote store is
unreachable. -/
theorem c10_cache_roundtrip_witness :
    TestData.wRound.resolve "p" = some "D"
    ∧ (jsGet (instanceRead TestData.wRound []).st.pathCache "p" = some "D"
      ∧ (instanceRead TestData.wRound []).cacheWrite
          = some (TestData.wRound.enc
              (TestData.wRound.serPC (instanceRead TestData.wRound []).st.pathCache)
              (TestData.wRound.scrypt (tokenStr TestData.wRound) TestData.wRound.freshSalt)
              ++ ":" ++ TestData.wRound.freshSalt)
      ∧ (readWrapped { TestData.wRound with
            cacheFile := (instanceRead TestData.wRound []).cacheWrite,
            resolve := fun _ => none } initSt).1 = Except.ok "D"
      ∧ (instanceRead { TestData.wRound with
            cacheFile := (instanceRead TestData.wRound []).cacheWrite,
            resolve := fun _ => none } []).st.log = []) :=
  ⟨by decide,
   c10_cache_roundtrip TestData.wRound [] [] "p" "D" (by decide) (by decide)
     (by decide) (by decide) (by decide) (by decide) (by decide) (by decide)
     (by decide) (by decide) (by decide) (by decide) (by decide) (by decide)⟩

end CxConfig
